import Mathlib

set_option maxHeartbeats 1000000

/-!
Shallow embedding of the uBlocks VM runtime (src/vm/runtime.c) and of the
Boardie host adapter (src/boardie/boardie.c).

Machine integers are modelled by `Nat`/`Int` with explicit `% 2^w` where
overflow matters; fixed C arrays (`tasks`, `chunks`) are Lean lists whose
length plays the role of `MAX_TASKS`/`MAX_CHUNKS` (the headers `mem.h`,
`interp.h` and `persist.h` are not part of the sources, so those constants
are left abstract as the lengths of the initial tables).  The dispatcher's
calls to `sendMessage` are recorded in an event trace; the byte-level
circular output buffer of runtime.c is modelled separately below.
-/

namespace VM

/-- Modelled from the spec: the numeric message-type identifiers of §4.G/§6
(`interp.h` is not in the sources; the spec only requires stable distinct
identifiers in `[0x01, 0x20]`). -/
def chunkCodeMsg : Nat := 1

/-- Modelled from the spec: message-type identifier (see `chunkCodeMsg`). -/
def deleteChunkMsg : Nat := 2

/-- Modelled from the spec: message-type identifier (see `chunkCodeMsg`). -/
def startChunkMsg : Nat := 3

/-- Modelled from the spec: message-type identifier (see `chunkCodeMsg`). -/
def stopChunkMsg : Nat := 4

/-- Modelled from the spec: message-type identifier (see `chunkCodeMsg`). -/
def startAllMsg : Nat := 5

/-- Modelled from the spec: message-type identifier (see `chunkCodeMsg`). -/
def stopAllMsg : Nat := 6

/-- Modelled from the spec: message-type identifier (see `chunkCodeMsg`). -/
def getVarMsg : Nat := 7

/-- Modelled from the spec: message-type identifier (see `chunkCodeMsg`). -/
def setVarMsg : Nat := 8

/-- Modelled from the spec: message-type identifier (see `chunkCodeMsg`). -/
def deleteVarMsg : Nat := 9

/-- Modelled from the spec: message-type identifier (see `chunkCodeMsg`). -/
def deleteCommentMsg : Nat := 10

/-- Modelled from the spec: message-type identifier (see `chunkCodeMsg`). -/
def getVersionMsg : Nat := 11

/-- Modelled from the spec: message-type identifier (see `chunkCodeMsg`). -/
def getAllCodeMsg : Nat := 12

/-- Modelled from the spec: message-type identifier (see `chunkCodeMsg`). -/
def deleteAllCodeMsg : Nat := 13

/-- Modelled from the spec: message-type identifier (see `chunkCodeMsg`). -/
def systemResetMsg : Nat := 14

/-- Modelled from the spec: message-type identifier (see `chunkCodeMsg`). -/
def taskStartedMsg : Nat := 15

/-- Modelled from the spec: message-type identifier (see `chunkCodeMsg`). -/
def taskDoneMsg : Nat := 16

/-- Modelled from the spec: message-type identifier (see `chunkCodeMsg`). -/
def taskReturnedValueMsg : Nat := 17

/-- Modelled from the spec: message-type identifier (see `chunkCodeMsg`). -/
def taskErrorMsg : Nat := 18

/-- Modelled from the spec: message-type identifier (see `chunkCodeMsg`). -/
def outputValueMsg : Nat := 19

/-- Modelled from the spec: message-type identifier (see `chunkCodeMsg`). -/
def varValueMsg : Nat := 20

/-- Modelled from the spec: message-type identifier (see `chunkCodeMsg`). -/
def versionMsg : Nat := 21

/-- Modelled from the spec: message-type identifier (see `chunkCodeMsg`). -/
def pingMsg : Nat := 26

/-- Modelled from the spec: message-type identifier (see `chunkCodeMsg`). -/
def broadcastMsg : Nat := 27

/-- Modelled from the spec: message-type identifier (see `chunkCodeMsg`). -/
def chunkAttributeMsg : Nat := 28

/-- Modelled from the spec: message-type identifier (see `chunkCodeMsg`). -/
def varNameMsg : Nat := 29

/-- Modelled from the spec: message-type identifier (see `chunkCodeMsg`). -/
def commentMsg : Nat := 30

/-- Modelled from the spec: message-type identifier (see `chunkCodeMsg`). -/
def commentPositionMsg : Nat := 31

/-- Modelled from the spec: task status `unused`; it must be the zero byte
because `initTasks` and the `memset` in `stopTaskForChunk` clear tasks with
`memset` (`mem.h` is not in the sources). -/
def unusedTask : Nat := 0

/-- Modelled from the spec: task status `running` (any nonzero value; the
code only tests statuses for being nonzero). -/
def running : Nat := 1

/-- Modelled from the spec: chunk type `unused`, the `memset` sentinel 0. -/
def unusedChunk : Nat := 0

/-- Modelled from the spec: chunk type of a command stack. -/
def commandStack : Nat := 1

/-- Modelled from the spec: chunk type of a reporter. -/
def reporterChunk : Nat := 2

/-- Modelled from the spec: chunk type of a function. -/
def functionChunk : Nat := 3

/-- Modelled from the spec: chunk type of a start hat. -/
def startHat : Nat := 4

/-- Modelled from the spec: chunk type of a when-condition hat. -/
def whenConditionHat : Nat := 5

/-- Modelled from the spec: chunk type of a broadcast hat. -/
def broadcastHat : Nat := 6

/-- Modelled from the spec: persistent record type `chunkCode`
(`persist.h` is not in the sources; only distinctness matters). -/
def chunkCode : Nat := 1

/-- Modelled from the spec: persistent record type `chunkAttribute`. -/
def chunkAttribute : Nat := 2

/-- Modelled from the spec: persistent record type `chunkDeleted`. -/
def chunkDeleted : Nat := 3

/-- Modelled from the spec: persistent record type `varName`. -/
def varName : Nat := 4

/-- Modelled from the spec: persistent record type `varDeleted`. -/
def varDeleted : Nat := 5

/-- Modelled from the spec: persistent record type `comment`. -/
def comment : Nat := 6

/-- Modelled from the spec: persistent record type `commentPosition`. -/
def commentPosition : Nat := 7

/-- Modelled from the spec: persistent record type `commentDeleted`. -/
def commentDeleted : Nat := 8

/-- Modelled from the spec: each chunk's code starts with a persistent-record
header of `PERSISTENT_HEADER_WORDS` words (value not claim-relevant). -/
def PERSISTENT_HEADER_WORDS : Nat := 2

/-- One entry of the `tasks` array of runtime.c.  A `memset` to zero is the
`default` value (`code` is then the null pointer, modelled as `none`). -/
structure Task where
  status : Nat := 0
  taskChunkIndex : Nat := 0
  currentChunkIndex : Nat := 0
  code : Option Nat := none
  ip : Nat := 0
  sp : Nat := 0
  fp : Nat := 0
deriving DecidableEq, Repr

instance : Inhabited Task := ⟨{}⟩

/-- One entry of the `chunks` array of runtime.c.  `hatLiteral` is modelled
from the spec: it stands for the broadcast name embedded as a `pushLiteral`
argument in the chunk's compiled code (reading it requires the external
`CMD`/`ARG`/`obj2str` helpers of `interp.h`/`mem.h`, which are not in the
sources); `none` plays the role of a chunk whose second instruction is not a
`pushLiteral`. -/
structure Chunk where
  chunkType : Nat := 0
  code : Option Nat := none
  hatLiteral : Option (List Nat) := none
deriving DecidableEq, Repr

instance : Inhabited Chunk := ⟨{}⟩

/-- Modelled from the spec: one record of the append-only persistent log
(§3/§4.D; `persist.c` is not in the sources, the runtime only appends). -/
structure PRec where
  recType : Nat
  index : Nat
  aux : Nat
  body : List Nat
deriving DecidableEq, Repr

/-- A dispatcher-level event: one invocation of `sendMessage` (whether the
bytes actually fit in the output ring is the business of the byte-level
model below). -/
inductive Msg where
  | taskStarted (chunkIndex : Nat)
  | taskDone (chunkIndex : Nat)
  | output (text : String)
deriving DecidableEq, Repr

/-- The mutable globals of runtime.c that the dispatcher operations touch:
the task table (length = `MAX_TASKS`), `taskCount`, the chunk table
(length = `MAX_CHUNKS`), the persistent log, and the trace of emitted
messages. -/
structure St where
  tasks : List Task
  taskCount : Nat
  chunks : List Chunk
  log : List PRec
  trace : List Msg
deriving DecidableEq, Repr

/-- The state after boot: `memset` tables, `taskCount = 0`, empty log. -/
def initSt (maxTasks maxChunks : Nat) : St :=
  { tasks := List.replicate maxTasks default
    taskCount := 0
    chunks := List.replicate maxChunks default
    log := [], trace := [] }

/-- Modelled from the spec: `append(recordType, index, aux, nBytes, bytes)`
of the persistence bridge (§4.D); it appends one record to the log and
returns a reference to it (its position). -/
def appendPersistentRecord (recType index aux : Nat) (body : List Nat) (s : St) : St × Nat :=
  ({ s with log := s.log ++ [{ recType := recType, index := index, aux := aux, body := body }] },
   s.log.length)

/-- `outputString` of runtime.c at the dispatcher level: it invokes
`sendMessage(outputValueMsg, 255, ...)` with the (truncated) string. -/
def outputString (text : String) (s : St) : St :=
  { s with trace := s.trace ++ [Msg.output text] }

/-- `initTasks` of runtime.c: `memset(tasks, 0, sizeof(tasks))` and
`taskCount = 0`. -/
def initTasks (s : St) : St :=
  { s with tasks := List.replicate s.tasks.length default, taskCount := 0 }

/-- The task entry that `startTaskForChunk` installs after its `memset`:
status running, both chunk-index fields set, the chunk's code pointer, `ip`
at the header offset and zeroed `sp`/`fp`. -/
def newTaskFor (chunkIndex : Nat) (s : St) : Task :=
  { status := running
    taskChunkIndex := chunkIndex
    currentChunkIndex := chunkIndex
    code := (s.chunks.getD chunkIndex default).code
    ip := PERSISTENT_HEADER_WORDS
    sp := 0
    fp := 0 }

/-- `startTaskForChunk` of runtime.c. -/
def startTaskForChunk (chunkIndex : Nat) (s : St) : St :=
  if (List.range s.taskCount).any
      (fun i => chunkIndex == (s.tasks.getD i default).taskChunkIndex
        && (s.tasks.getD i default).status != unusedTask) then
    s
  else
    match (List.range s.tasks.length).find?
        (fun i => (s.tasks.getD i default).status == unusedTask) with
    | none => outputString "No free task entries" s
    | some i =>
        { s with
          tasks := s.tasks.set i (newTaskFor chunkIndex s)
          taskCount := if s.taskCount ≤ i then i + 1 else s.taskCount
          trace := s.trace ++ [Msg.taskStarted chunkIndex] }

/-- `stopTaskForChunk` of runtime.c.  Note: the search compares only
`taskChunkIndex`, without looking at the status. -/
def stopTaskForChunk (chunkIndex : Nat) (s : St) : St :=
  match (List.range s.tasks.length).find?
      (fun i => chunkIndex == (s.tasks.getD i default).taskChunkIndex) with
  | none => s
  | some i =>
      { s with
        tasks := s.tasks.set i default
        taskCount := if i + 1 = s.taskCount then s.taskCount - 1 else s.taskCount
        trace := s.trace ++ [Msg.taskDone chunkIndex] }

/-- `stopAllTasks` of runtime.c: emit `taskDoneMsg` for every entry below
`taskCount` whose status is nonzero, then `initTasks`. -/
def stopAllTasks (s : St) : St :=
  initTasks
    { s with
      trace := s.trace ++ (List.range s.taskCount).filterMap (fun t =>
        if (s.tasks.getD t default).status ≠ unusedTask then
          some (Msg.taskDone (s.tasks.getD t default).taskChunkIndex)
        else none) }

/-- `sendTaskDone` of runtime.c: one unconditional `taskDoneMsg`. -/
def sendTaskDone (chunkIndex : Nat) (s : St) : St :=
  { s with trace := s.trace ++ [Msg.taskDone chunkIndex] }

/-- `startAll` of runtime.c. -/
def startAll (s : St) : St :=
  (List.range s.chunks.length).foldl
    (fun acc i =>
      if (acc.chunks.getD i default).chunkType = startHat
          ∨ (acc.chunks.getD i default).chunkType = whenConditionHat then
        startTaskForChunk i acc
      else acc)
    (stopAllTasks s)

/-- `broadcastMatches` of runtime.c, with the opcode inspection replaced by
the `hatLiteral` model field (see `Chunk`): the chunk matches when its
embedded literal exists and equals the message byte-for-byte. -/
def broadcastMatches (chunkIndex : Nat) (msg : List Nat) (s : St) : Bool :=
  match (s.chunks.getD chunkIndex default).hatLiteral with
  | none => false
  | some l => l == msg

/-- `startReceiversOfBroadcast` of runtime.c. -/
def startReceiversOfBroadcast (msg : List Nat) (s : St) : St :=
  (List.range s.chunks.length).foldl
    (fun acc i =>
      if (acc.chunks.getD i default).chunkType = broadcastHat
          ∧ broadcastMatches i msg acc then
        startTaskForChunk i acc
      else acc)
    s

/-- `storeCodeChunk` of runtime.c; `data` is the message body, whose first
byte is the chunk type. -/
def storeCodeChunk (chunkIndex : Nat) (data : List Nat) (s : St) : St :=
  if s.chunks.length ≤ chunkIndex then s
  else
    let chunkType := data.getD 0 0
    let r := appendPersistentRecord chunkCode chunkIndex chunkType (data.drop 1) s
    let entry : Chunk := { chunkType := chunkType, code := some r.2, hatLiteral := none }
    { r.1 with chunks := r.1.chunks.set chunkIndex entry }

/-- `deleteCodeChunk` of runtime.c. -/
def deleteCodeChunk (chunkIndex : Nat) (s : St) : St :=
  if s.chunks.length ≤ chunkIndex then s
  else
    let s1 := stopTaskForChunk chunkIndex s
    let entry : Chunk := { chunkType := unusedChunk, code := none, hatLiteral := none }
    let s2 := { s1 with chunks := s1.chunks.set chunkIndex entry }
    (appendPersistentRecord chunkDeleted chunkIndex 0 [] s2).1

/-- `deleteAllChunks` of runtime.c: stop everything, append a `chunkDeleted`
record for every chunk index, then `memset` the chunk table. -/
def deleteAllChunks (s : St) : St :=
  let s1 := stopAllTasks s
  let s2 := (List.range s1.chunks.length).foldl
    (fun acc i => (appendPersistentRecord chunkDeleted i 0 [] acc).1) s1
  { s2 with chunks := List.replicate s2.chunks.length default }

/-- The dispatcher operations quantified over in the claims. -/
inductive Op where
  | startTask (chunkIndex : Nat)
  | stopTask (chunkIndex : Nat)
  | startAllOp
  | stopAllOp
  | broadcast (msg : List Nat)
  | deleteChunk (chunkIndex : Nat)
  | deleteAll
deriving DecidableEq, Repr

/-- Interpretation of one dispatcher operation. -/
def applyOp (op : Op) (s : St) : St :=
  match op with
  | .startTask ci => startTaskForChunk ci s
  | .stopTask ci => stopTaskForChunk ci s
  | .startAllOp => startAll s
  | .stopAllOp => stopAllTasks s
  | .broadcast msg => startReceiversOfBroadcast msg s
  | .deleteChunk ci => deleteCodeChunk ci s
  | .deleteAll => deleteAllChunks s

/-- Run a sequence of dispatcher operations from the boot state. -/
def run (maxTasks maxChunks : Nat) (ops : List Op) : St :=
  ops.foldl (fun s op => applyOp op s) (initSt maxTasks maxChunks)

/-- The status field of task-table entry `i` (reads beyond the table give
the zeroed default). -/
def statusOf (s : St) (i : Nat) : Nat :=
  (s.tasks.getD i default).status

/-- The `taskChunkIndex` field of task-table entry `i`. -/
def taskChunkOf (s : St) (i : Nat) : Nat :=
  (s.tasks.getD i default).taskChunkIndex

/-- Does some task-table entry (of any status) carry this chunk index? -/
def anyEntryFor (c : Nat) (s : St) : Bool :=
  (List.range s.tasks.length).any (fun i => c == (s.tasks.getD i default).taskChunkIndex)

/-- Does some task-table entry carry this chunk index with a non-unused
status? -/
def anyNonUnusedFor (c : Nat) (s : St) : Bool :=
  (List.range s.tasks.length).any
    (fun i => (s.tasks.getD i default).taskChunkIndex == c
      && (s.tasks.getD i default).status != unusedTask)

/-- Recogniser for a `taskDoneMsg` event for chunk `c`. -/
def isTaskDoneFor (c : Nat) : Msg → Bool
  | Msg.taskDone c' => c' == c
  | _ => false

/-- Number of `chunkDeleted` records in a persistent log. -/
def countChunkDeleted (log : List PRec) : Nat :=
  log.countP (fun r => r.recType == chunkDeleted)

/-- The record appended by `deleteAllChunks` for chunk index `i`. -/
def chunkDeletedRec (i : Nat) : PRec :=
  { recType := chunkDeleted, index := i, aux := 0, body := [] }

/-- At most one task entry with status ≠ unused exists per chunk index. -/
def AtMostOneTaskPerChunk (s : St) : Prop :=
  ∀ i, i < s.tasks.length → ∀ j, j < s.tasks.length →
    statusOf s i ≠ unusedTask → statusOf s j ≠ unusedTask →
    taskChunkOf s i = taskChunkOf s j → i = j

/-- Entries at or beyond `taskCount` are unused. -/
def TailUnused (s : St) : Prop :=
  ∀ j, j < s.tasks.length → s.taskCount ≤ j → statusOf s j = unusedTask

/-- The task-table invariant maintained by every dispatcher operation. -/
def TasksInv (s : St) : Prop :=
  TailUnused s ∧ AtMostOneTaskPerChunk s

instance (s : St) : Decidable (AtMostOneTaskPerChunk s) := by
  unfold AtMostOneTaskPerChunk; infer_instance

instance (s : St) : Decidable (TailUnused s) := by
  unfold TailUnused; infer_instance

instance (s : St) : Decidable (TasksInv s) := by
  unfold TasksInv; infer_instance

/-- `OUTBUF_SIZE` of runtime.c (1024, a power of two). -/
def OUTBUF_SIZE : Nat := 1024

/-- `OUTBUF_MASK` of runtime.c. -/
def OUTBUF_MASK : Nat := OUTBUF_SIZE - 1

/-- The circular output buffer of runtime.c: the `uint8 outBuf[OUTBUF_SIZE]`
array (modelled as a function from index to byte value) and the two masked
offsets `outBufStart`/`outBufEnd`. -/
structure OutBuf where
  outBuf : Nat → Nat
  outBufStart : Nat
  outBufEnd : Nat

/-- The boot output buffer: zeroed storage, both offsets 0. -/
def initOutBuf : OutBuf :=
  { outBuf := fun _ => 0, outBufStart := 0, outBufEnd := 0 }

/-- The `OUTBUF_BYTES()` macro, `(outBufEnd - outBufStart) & OUTBUF_MASK`,
with the two's-complement wrap written out for offsets below the size. -/
def OUTBUF_BYTES (s : OutBuf) : Nat :=
  (s.outBufEnd + OUTBUF_SIZE - s.outBufStart) % OUTBUF_SIZE

/-- `queueByte` of runtime.c: store the byte (a `char`, hence mod 256) at
`outBufEnd` and advance the masked offset.  The caller must have reserved
space. -/
def queueByte (aByte : Nat) (s : OutBuf) : OutBuf :=
  { s with
    outBuf := fun j => if j = s.outBufEnd then aByte % 256 else s.outBuf j
    outBufEnd := (s.outBufEnd + 1) % OUTBUF_SIZE }

/-- A sequence of `queueByte` calls, in order. -/
def queueBytes (l : List Nat) (s : OutBuf) : OutBuf :=
  l.foldl (fun acc b => queueByte b acc) s

/-- `hasOutputSpace` of runtime.c: strictly more free slots than needed. -/
def hasOutputSpace (byteCount : Nat) (s : OutBuf) : Bool :=
  decide (OUTBUF_MASK - OUTBUF_BYTES s > byteCount)

/-- The bytes a frame occupies on the wire, in the order `sendMessage`
queues them: short frames are `FA type index`, long frames are
`FB type index lenLo lenHi body`. -/
def frameBytes (msgType chunkIndex : Nat) (data : Option (List Nat)) : List Nat :=
  match data with
  | none => [250, msgType, chunkIndex]
  | some d => [251, msgType, chunkIndex, d.length % 256, (d.length / 256) % 256] ++ d

/-- The total byte count `sendMessage` reserves for a message. -/
def msgTotalBytes (data : Option (List Nat)) : Nat :=
  match data with
  | none => 3
  | some d => 5 + d.length

/-- `sendMessage` of runtime.c at byte level (`data = none` is the C null
pointer): the whole message is dropped unless `hasOutputSpace` grants the
total size, otherwise every byte is queued. -/
def sendMessage (msgType chunkIndex : Nat) (data : Option (List Nat)) (s : OutBuf) : OutBuf :=
  match data with
  | none =>
    if hasOutputSpace 3 s then queueBytes [250, msgType, chunkIndex] s else s
  | some d =>
    if hasOutputSpace (5 + d.length) s then
      queueBytes ([251, msgType, chunkIndex, d.length % 256, (d.length / 256) % 256] ++ d) s
    else s

/-- The queued bytes of the ring, read from `outBufStart` in order. -/
def ringContents (s : OutBuf) : List Nat :=
  (List.range (OUTBUF_BYTES s)).map (fun j => s.outBuf ((s.outBufStart + j) % OUTBUF_SIZE))

/-- Well-formedness of the masked offsets (maintained by every operation). -/
def OutBufWF (s : OutBuf) : Prop :=
  s.outBufStart < OUTBUF_SIZE ∧ s.outBufEnd < OUTBUF_SIZE

/-- Modelled from the spec (§4.H/§9): a tagged runtime value.  The heap
representation (`mem.h`: `isInt`, `int2obj`, `obj2int`, `IS_CLASS`,
`obj2str`, `newStringFromBytes`) is not in the sources; the spec replaces
it by a tagged variant carrying a 32-bit signed integer, the UTF-8 bytes of
a string, a boolean, or the raw bytes of a byte array. -/
inductive Value where
  | intV (n : Int)
  | strV (s : List Nat)
  | boolV (b : Bool)
  | byteArrayV (bs : List Nat)
deriving DecidableEq, Repr

/-- Reinterpretation of a bit pattern as a 32-bit signed integer (the value
of the C `int` whose unsigned residue is `m % 2^32`). -/
def asInt32 (m : Nat) : Int :=
  if m % 4294967296 < 2147483648 then ((m % 4294967296 : Nat) : Int)
  else ((m % 4294967296 : Nat) : Int) - 4294967296

/-- The four little-endian bytes `n & 0xFF`, `(n >> 8) & 0xFF`,
`(n >> 16) & 0xFF`, `(n >> 24) & 0xFF` of a 32-bit signed `int`. -/
def int32Bytes (n : Int) : List Nat :=
  [(n % 4294967296).toNat % 256,
   (n % 4294967296).toNat / 256 % 256,
   (n % 4294967296).toNat / 65536 % 256,
   (n % 4294967296).toNat / 16777216 % 256]

/-- The `data[0..dataSize)` body built by `sendValueMessage` of runtime.c:
a type tag (1 integer, 2 string, 3 boolean, 4 byte array) followed by the
payload; string and byte-array payloads are truncated to the 499-byte
ceiling (`maxBytes = sizeof(data) - 1`).  The stored bytes are `char`s,
hence mod 256. -/
def sendValueMessageData : Value → List Nat
  | .intV n => 1 :: int32Bytes n
  | .strV str => 2 :: (str.take 499).map (· % 256)
  | .boolV b => [3, if b then 1 else 0]
  | .byteArrayV bs => 4 :: (bs.take 499).map (· % 256)

/-- `setVariableValue` of runtime.c, with the C `switch` written as the
equivalent chain of tests; the wire bytes are below 256, so the `|` of the
shifted bytes in case 1 is their sum.  Unknown type tags leave the variable
table unchanged. -/
def setVariableValue (varID byteCount : Nat) (data : List Nat) (vars : List Value) :
    List Value :=
  if varID < vars.length then
    if data.getD 0 0 = 1 then
      vars.set varID (.intV (asInt32 (data.getD 4 0 * 16777216 + data.getD 3 0 * 65536
        + data.getD 2 0 * 256 + data.getD 1 0)))
    else if data.getD 0 0 = 2 then
      if 1 ≤ byteCount then
        vars.set varID (.strV ((data.drop 1).take (byteCount - 1)))
      else vars
    else if data.getD 0 0 = 3 then
      vars.set varID (.boolV (data.getD 1 0 != 0))
    else vars
  else vars

/-- The side condition of the round-trip claim: a 32-bit integer, a string
of at most 499 bytes, or a boolean. -/
def ValueInRange : Value → Prop
  | .intV n => -2147483648 ≤ n ∧ n < 2147483648
  | .strV str => str.length ≤ 499 ∧ ∀ b ∈ str, b < 256
  | .boolV _ => True
  | .byteArrayV _ => False

instance : DecidablePred ValueInRange := by
  intro v
  cases v <;> unfold ValueInRange <;> infer_instance

/-- A legal wire message type lies in `[0x01, 0x20]` (the test of
`skipToStartByteAfter`, negated from `(b < 0x01) || (b > 0x20)`). -/
def legalMsgType (b : Nat) : Bool :=
  decide (1 ≤ b) && decide (b ≤ 32)

/-- The scan loop of `skipToStartByteAfter`, with the number of remaining
indices as structural fuel: find the first index at or after `i` holding
0xFA or 0xFB whose following byte, when it is buffered, is a legal message
type (the `continue` of the C loop is the recursive call). -/
def findStartGo (buf : List Nat) : Nat → Nat → Option Nat
  | 0, _ => none
  | fuel + 1, i =>
    if i < buf.length then
      if buf.getD i 0 = 250 ∨ buf.getD i 0 = 251 then
        if i + 1 < buf.length ∧ legalMsgType (buf.getD (i + 1) 0) = false then
          findStartGo buf fuel (i + 1)
        else some i
      else findStartGo buf fuel (i + 1)
    else none

/-- The index `nextStart` computed by `skipToStartByteAfter`, if any. -/
def findStart (buf : List Nat) (startIndex : Nat) : Option Nat :=
  findStartGo buf (buf.length - startIndex) startIndex

/-- `skipToStartByteAfter` of runtime.c acting on the valid prefix of
`rcvBuf` (the first `rcvByteCount` bytes): shift the found start byte to
offset 0 (the forward copy loop is a `drop`), or clear the whole buffer
when no start byte is found. -/
def skipToStartByteAfter (startIndex : Nat) (buf : List Nat) : List Nat :=
  match findStart buf startIndex with
  | none => []
  | some n => buf.drop n

/-- One dispatched command of the receive path: the `switch` of
`processShortMessage` or `processLongMessage` invoking a handler. -/
inductive Evt where
  | shortCmd (cmd arg : Nat)
  | longCmd (cmd arg : Nat) (body : List Nat)
deriving DecidableEq, Repr

/-- Receive-path state: the buffered bytes (the first `rcvByteCount` bytes
of `rcvBuf`) and the trace of dispatched commands. -/
structure RcvSt where
  rcvBuf : List Nat
  events : List Evt
deriving DecidableEq, Repr

/-- The boot receive state: empty buffer, no events. -/
def initRcvSt : RcvSt :=
  { rcvBuf := [], events := [] }

/-- The command set of the short-message `switch` of runtime.c. -/
def isShortCmd (cmd : Nat) : Bool :=
  cmd == deleteChunkMsg || cmd == startChunkMsg || cmd == stopChunkMsg
    || cmd == startAllMsg || cmd == stopAllMsg || cmd == getVarMsg
    || cmd == deleteVarMsg || cmd == deleteCommentMsg || cmd == getVersionMsg
    || cmd == getAllCodeMsg || cmd == deleteAllCodeMsg || cmd == systemResetMsg
    || cmd == pingMsg

/-- The command set of the long-message `switch` of runtime.c. -/
def isLongCmd (cmd : Nat) : Bool :=
  cmd == chunkCodeMsg || cmd == setVarMsg || cmd == broadcastMsg
    || cmd == chunkAttributeMsg || cmd == varNameMsg || cmd == commentMsg
    || cmd == commentPositionMsg

/-- `processShortMessage` of runtime.c at the framing level: `timeout` is
the value of the external `receiveTimeout()`; a dispatched command is
recorded as an event. -/
def processShortMessage (timeout : Bool) (s : RcvSt) : RcvSt :=
  if s.rcvBuf.length < 3 then
    if timeout then { s with rcvBuf := skipToStartByteAfter 1 s.rcvBuf } else s
  else
    { rcvBuf := skipToStartByteAfter 3 s.rcvBuf
      events := s.events ++ (if isShortCmd (s.rcvBuf.getD 1 0) then
        [Evt.shortCmd (s.rcvBuf.getD 1 0) (s.rcvBuf.getD 2 0)] else []) }

/-- `processLongMessage` of runtime.c at the framing level.  `msgLength` is
read before the length checks as in the C (the stale-read case is harmless:
whenever fewer than 5 bytes are buffered the first disjunct already sends
the call into the incomplete branch). -/
def processLongMessage (timeout : Bool) (s : RcvSt) : RcvSt :=
  let msgLength := s.rcvBuf.getD 4 0 * 256 + s.rcvBuf.getD 3 0
  if s.rcvBuf.length < 5 ∨ s.rcvBuf.length < 5 + msgLength then
    if timeout then { s with rcvBuf := skipToStartByteAfter 1 s.rcvBuf } else s
  else if s.rcvBuf.getD (5 + msgLength - 1) 0 ≠ 254 then
    { s with rcvBuf := skipToStartByteAfter 1 s.rcvBuf }
  else
    { rcvBuf := skipToStartByteAfter (5 + msgLength) s.rcvBuf
      events := s.events ++ (if isLongCmd (s.rcvBuf.getD 1 0) then
        [Evt.longCmd (s.rcvBuf.getD 1 0) (s.rcvBuf.getD 2 0)
          ((s.rcvBuf.drop 5).take (msgLength - 1))] else []) }

/-- `processMessage` of runtime.c with the host read made explicit: the
`incoming` bytes are what `readBytes` delivered this tick (the one-byte
output drain `sendNextByte` lives in the `OutBuf` model). -/
def processMessage (incoming : List Nat) (timeout : Bool) (s : RcvSt) : RcvSt :=
  let buf := s.rcvBuf ++ incoming
  if buf.length = 0 then { s with rcvBuf := buf }
  else if buf.getD 0 0 = 250 then processShortMessage timeout { s with rcvBuf := buf }
  else if buf.getD 0 0 = 251 then processLongMessage timeout { s with rcvBuf := buf }
  else { s with rcvBuf := skipToStartByteAfter 1 buf }

/-- The acceptance condition of the resync scan as implemented: a start
byte whose following byte, when one is buffered, is a legal message type
(a start byte at the last buffered position is accepted unconditionally). -/
def acceptAt (buf : List Nat) (i : Nat) : Prop :=
  (buf.getD i 0 = 250 ∨ buf.getD i 0 = 251)
    ∧ (i + 1 < buf.length → legalMsgType (buf.getD (i + 1) 0) = true)

instance (buf : List Nat) (i : Nat) : Decidable (acceptAt buf i) := by
  unfold acceptAt; infer_instance

/-- The acceptance condition in the words of the claim, for comparison:
the following byte must exist in the buffer and be a legal message type. -/
def claimAccept (buf : List Nat) (i : Nat) : Prop :=
  (buf.getD i 0 = 250 ∨ buf.getD i 0 = 251)
    ∧ i + 1 < buf.length ∧ legalMsgType (buf.getD (i + 1) 0) = true

instance (buf : List Nat) (i : Nat) : Decidable (claimAccept buf i) := by
  unfold claimAccept; infer_instance

/-- The read loop of `recvBytes` in boardie.c: `avail` is the host queue
(`canReadByte`/`nextByte`), `total` the running counter, `count` the
caller's bound (a C `int`).  Returns the returned total together with the
`(index, byte)` stores performed on `buf`.  The loop condition is the
code's `total <= count`. -/
def recvBytesGo : List Nat → Nat → Int → Nat × List (Nat × Nat)
  | [], total, _ => (total, [])
  | b :: rest, total, count =>
    if (total : Int) ≤ count then
      let r := recvBytesGo rest (total + 1) count
      (r.1, (total, b) :: r.2)
    else (total, [])

/-- `recvBytes` of boardie.c. -/
def recvBytes (avail : List Nat) (count : Int) : Nat × List (Nat × Nat) :=
  recvBytesGo avail 0 count

/-- `getD` after `set` at the written index. -/
theorem getD_set_self {α : Type} :
    ∀ (l : List α) (i : Nat) (a d : α), i < l.length → (l.set i a).getD i d = a
  | [], i, _, _, h => by simp at h
  | _ :: _, 0, _, _, _ => rfl
  | _ :: xs, i + 1, a, d, h =>
    by simpa using getD_set_self xs i a d (by simpa using h)

/-- `getD` after `set` at another index. -/
theorem getD_set_ne {α : Type} :
    ∀ (l : List α) (i j : Nat) (a d : α), j ≠ i → (l.set i a).getD j d = l.getD j d
  | [], _, _, _, _, _ => by simp
  | _ :: _, 0, 0, _, _, h => absurd rfl h
  | _ :: _, 0, _ + 1, _, _, _ => by simp
  | _ :: _, _ + 1, 0, _, _, _ => by simp
  | _ :: xs, i + 1, j + 1, a, d, h =>
    by simpa using getD_set_ne xs i j a d (fun hc => h (by omega))

/-- `getD` of a replicated list with the same default. -/
theorem getD_replicate {α : Type} (n i : Nat) (d : α) :
    (List.replicate n d).getD i d = d := by
  by_cases h : i < n
  · rw [List.getD_eq_getElem _ _ (by simpa using h)]
    exact List.getElem_replicate ..
  · exact List.getD_eq_default _ _ (by simpa using Nat.le_of_not_lt h)

/-- Entries beyond the task table read as unused. -/
theorem statusOf_default (s : St) (j : Nat) (h : s.tasks.length ≤ j) :
    statusOf s j = unusedTask := by
  unfold statusOf
  rw [List.getD_eq_default _ _ h]
  rfl

/-- The invariant only depends on the task table and `taskCount`. -/
theorem tasksInv_congr {s s' : St} (ht : s'.tasks = s.tasks)
    (hc : s'.taskCount = s.taskCount) (h : TasksInv s) : TasksInv s' := by
  unfold TasksInv TailUnused AtMostOneTaskPerChunk statusOf taskChunkOf at h ⊢
  rw [ht, hc]
  exact h

/-- `startTaskForChunk` preserves the task-table invariant. -/
theorem tasksInv_startTaskForChunk (ci : Nat) (s : St) (h : TasksInv s) :
    TasksInv (startTaskForChunk ci s) := by
  unfold startTaskForChunk
  split
  · exact h
  · next hg =>
    have hnorun : ∀ i, i < s.taskCount →
        ¬(taskChunkOf s i = ci ∧ statusOf s i ≠ unusedTask) := by
      intro i hi hcontra
      apply hg
      rw [List.any_eq_true]
      refine ⟨i, List.mem_range.mpr hi, ?_⟩
      simp only [Bool.and_eq_true, beq_iff_eq, bne_iff_ne, ne_eq]
      unfold taskChunkOf statusOf at hcontra
      exact ⟨hcontra.1.symm, hcontra.2⟩
    split
    · next => exact tasksInv_congr rfl rfl h
    · next i hf =>
      have hilen : i < s.tasks.length := by
        simpa using List.mem_range.mp (List.mem_of_find?_eq_some hf)
      set s' : St :=
        { s with
          tasks := s.tasks.set i (newTaskFor ci s)
          taskCount := if s.taskCount ≤ i then i + 1 else s.taskCount
          trace := s.trace ++ [Msg.taskStarted ci] } with hs'
      have hlen' : s'.tasks.length = s.tasks.length := by
        simp [hs']
      have hstat_eq : statusOf s' i = running := by
        unfold statusOf
        simp only [hs']
        rw [getD_set_self _ _ _ _ hilen]
        rfl
      have hchunk_eq : taskChunkOf s' i = ci := by
        unfold taskChunkOf
        simp only [hs']
        rw [getD_set_self _ _ _ _ hilen]
        rfl
      have hstat_ne : ∀ j, j ≠ i → statusOf s' j = statusOf s j := by
        intro j hj
        unfold statusOf
        simp only [hs']
        rw [getD_set_ne _ _ _ _ _ hj]
      have hchunk_ne : ∀ j, j ≠ i → taskChunkOf s' j = taskChunkOf s j := by
        intro j hj
        unfold taskChunkOf
        simp only [hs']
        rw [getD_set_ne _ _ _ _ _ hj]
      have hi_lt_tc' : i < s'.taskCount := by
        simp only [hs']
        by_cases htc : s.taskCount ≤ i
        · rw [if_pos htc]; omega
        · rw [if_neg htc]; omega
      have htc'_ge : s.taskCount ≤ s'.taskCount := by
        simp only [hs']
        by_cases htc : s.taskCount ≤ i
        · rw [if_pos htc]; omega
        · rw [if_neg htc]
      have hno_other : ∀ j, j < s.tasks.length → j ≠ i →
          statusOf s j ≠ unusedTask → taskChunkOf s j ≠ ci := by
        intro j hjlen _ hstat hchunk
        by_cases hjtc : j < s.taskCount
        · exact hnorun j hjtc ⟨hchunk, hstat⟩
        · exact hstat (h.1 j hjlen (Nat.le_of_not_lt hjtc))
      constructor
      · intro j hjlen hjtc
        have hji : j ≠ i := by omega
        rw [hstat_ne j hji]
        exact h.1 j (hlen' ▸ hjlen) (by omega)
      · intro a ha b hb hsa hsb hcab
        rw [hlen'] at ha hb
        by_cases hai : a = i
        · by_cases hbi : b = i
          · omega
          · exfalso
            rw [hstat_ne b hbi] at hsb
            rw [hchunk_ne b hbi] at hcab
            rw [hai, hchunk_eq] at hcab
            exact hno_other b hb hbi hsb hcab.symm
        · by_cases hbi : b = i
          · exfalso
            rw [hstat_ne a hai] at hsa
            rw [hchunk_ne a hai] at hcab
            rw [hbi, hchunk_eq] at hcab
            exact hno_other a ha hai hsa hcab
          · rw [hstat_ne a hai] at hsa
            rw [hstat_ne b hbi] at hsb
            rw [hchunk_ne a hai, hchunk_ne b hbi] at hcab
            exact h.2 a ha b hb hsa hsb hcab

/-- `stopTaskForChunk` preserves the task-table invariant. -/
theorem tasksInv_stopTaskForChunk (ci : Nat) (s : St) (h : TasksInv s) :
    TasksInv (stopTaskForChunk ci s) := by
  unfold stopTaskForChunk
  split
  · exact h
  · next i hf =>
    have hilen : i < s.tasks.length := by
      simpa using List.mem_range.mp (List.mem_of_find?_eq_some hf)
    set s' : St :=
      { s with
        tasks := s.tasks.set i default
        taskCount := if i + 1 = s.taskCount then s.taskCount - 1 else s.taskCount
        trace := s.trace ++ [Msg.taskDone ci] } with hs'
    have hlen' : s'.tasks.length = s.tasks.length := by simp [hs']
    have hstat_eq : statusOf s' i = unusedTask := by
      unfold statusOf
      simp only [hs']
      rw [getD_set_self _ _ _ _ hilen]
      rfl
    have hstat_ne : ∀ j, j ≠ i → statusOf s' j = statusOf s j := by
      intro j hj
      unfold statusOf
      simp only [hs']
      rw [getD_set_ne _ _ _ _ _ hj]
    have hchunk_ne : ∀ j, j ≠ i → taskChunkOf s' j = taskChunkOf s j := by
      intro j hj
      unfold taskChunkOf
      simp only [hs']
      rw [getD_set_ne _ _ _ _ _ hj]
    constructor
    · intro j hjlen hjtc
      rw [hlen'] at hjlen
      by_cases hji : j = i
      · rw [hji]; exact hstat_eq
      · rw [hstat_ne j hji]
        apply h.1 j hjlen
        have : s'.taskCount = if i + 1 = s.taskCount then s.taskCount - 1 else s.taskCount := by
          simp [hs']
        rw [this] at hjtc
        by_cases hcase : i + 1 = s.taskCount
        · rw [if_pos hcase] at hjtc; omega
        · rw [if_neg hcase] at hjtc; omega
    · intro a ha b hb hsa hsb hcab
      rw [hlen'] at ha hb
      have hai : a ≠ i := fun hc => hsa (hc ▸ hstat_eq)
      have hbi : b ≠ i := fun hc => hsb (hc ▸ hstat_eq)
      rw [hstat_ne a hai] at hsa
      rw [hstat_ne b hbi] at hsb
      rw [hchunk_ne a hai, hchunk_ne b hbi] at hcab
      exact h.2 a ha b hb hsa hsb hcab

/-- After `stopAllTasks` the whole table is unused, so the invariant holds
unconditionally. -/
theorem tasksInv_stopAllTasks (s : St) : TasksInv (stopAllTasks s) := by
  have hstat : ∀ j, statusOf (stopAllTasks s) j = unusedTask := by
    intro j
    unfold statusOf stopAllTasks initTasks
    simp only []
    by_cases hj : j < s.tasks.length
    · rw [List.getD_eq_getElem _ _ (by simpa using hj)]
      rw [List.getElem_replicate]
      rfl
    · rw [List.getD_eq_default _ _ (by simpa using Nat.le_of_not_lt hj)]
      rfl
  constructor
  · intro j _ _; exact hstat j
  · intro a _ b _ hsa _ _
    exact absurd (hstat a) hsa

/-- A fold preserves the invariant if every step does. -/
theorem tasksInv_foldl {β : Type} (f : St → β → St)
    (hf : ∀ s b, TasksInv s → TasksInv (f s b)) :
    ∀ (l : List β) (s : St), TasksInv s → TasksInv (l.foldl f s) := by
  intro l
  induction l with
  | nil => intro s h; exact h
  | cons x xs ih => intro s h; exact ih (f s x) (hf s x h)

/-- `startAll` preserves the task-table invariant. -/
theorem tasksInv_startAll (s : St) (_h : TasksInv s) : TasksInv (startAll s) := by
  unfold startAll
  apply tasksInv_foldl
  · intro s' i h'
    split
    · exact tasksInv_startTaskForChunk i s' h'
    · exact h'
  · exact tasksInv_stopAllTasks s

/-- `startReceiversOfBroadcast` preserves the task-table invariant. -/
theorem tasksInv_startReceiversOfBroadcast (msg : List Nat) (s : St) (h : TasksInv s) :
    TasksInv (startReceiversOfBroadcast msg s) := by
  unfold startReceiversOfBroadcast
  apply tasksInv_foldl
  · intro s' i h'
    split
    · exact tasksInv_startTaskForChunk i s' h'
    · exact h'
  · exact h

/-- `deleteCodeChunk` preserves the task-table invariant. -/
theorem tasksInv_deleteCodeChunk (ci : Nat) (s : St) (h : TasksInv s) :
    TasksInv (deleteCodeChunk ci s) := by
  unfold deleteCodeChunk
  split
  · exact h
  · exact tasksInv_congr rfl rfl
      (tasksInv_congr rfl rfl (tasksInv_stopTaskForChunk ci s h))

/-- `deleteAllChunks` preserves the task-table invariant. -/
theorem tasksInv_deleteAllChunks (s : St) (_h : TasksInv s) :
    TasksInv (deleteAllChunks s) := by
  unfold deleteAllChunks
  apply tasksInv_congr rfl rfl
  apply tasksInv_foldl
  · intro s' i h'
    exact tasksInv_congr rfl rfl h'
  · exact tasksInv_stopAllTasks s

/-- Every dispatcher operation preserves the task-table invariant. -/
theorem tasksInv_applyOp (op : Op) (s : St) (h : TasksInv s) :
    TasksInv (applyOp op s) := by
  cases op with
  | startTask ci => exact tasksInv_startTaskForChunk ci s h
  | stopTask ci => exact tasksInv_stopTaskForChunk ci s h
  | startAllOp => exact tasksInv_startAll s h
  | stopAllOp => exact tasksInv_stopAllTasks s
  | broadcast msg => exact tasksInv_startReceiversOfBroadcast msg s h
  | deleteChunk ci => exact tasksInv_deleteCodeChunk ci s h
  | deleteAll => exact tasksInv_deleteAllChunks s h

/-- The boot state satisfies the invariant. -/
theorem tasksInv_initSt (maxTasks maxChunks : Nat) : TasksInv (initSt maxTasks maxChunks) := by
  have hstat : ∀ j, statusOf (initSt maxTasks maxChunks) j = unusedTask := by
    intro j
    unfold statusOf initSt
    rw [getD_replicate]
    rfl
  constructor
  · intro j _ _; exact hstat j
  · intro a _ b _ hsa _ _
    exact absurd (hstat a) hsa

/-- C1: for every sequence of dispatcher operations starting from the boot
state, at most one task entry with status ≠ unused exists per chunk index. -/
theorem C1_at_most_one_task_per_chunk (maxTasks maxChunks : Nat) (ops : List Op) :
    AtMostOneTaskPerChunk (run maxTasks maxChunks ops) := by
  have hinv : TasksInv (run maxTasks maxChunks ops) := by
    unfold run
    exact tasksInv_foldl _ (fun s op h => tasksInv_applyOp op s h) ops _
      (tasksInv_initSt maxTasks maxChunks)
  exact hinv.2

/-- C1 check at a concrete operation sequence. -/
theorem C1_at_most_one_task_per_chunk_witness :
    AtMostOneTaskPerChunk (run 4 6 [Op.startTask 1, Op.startTask 2, Op.broadcast [103, 111],
      Op.stopTask 1, Op.startAllOp, Op.deleteChunk 2, Op.deleteAll, Op.startTask 3]) :=
  C1_at_most_one_task_per_chunk 4 6 _

/-- If an entry below `taskCount` already runs the chunk, `startTaskForChunk`
returns without any change. -/
theorem startTaskForChunk_of_any_true (ci : Nat) (s : St)
    (h : (List.range s.taskCount).any
      (fun i => ci == (s.tasks.getD i default).taskChunkIndex
        && (s.tasks.getD i default).status != unusedTask) = true) :
    startTaskForChunk ci s = s := by
  unfold startTaskForChunk
  rw [h]
  simp

/-- The early-return guard of `startTaskForChunk` is false whenever no entry
below `taskCount` holds a non-unused task for the chunk. -/
theorem startTask_guard_false (ci : Nat) (s : St)
    (hNoAll : ∀ i, i < s.taskCount → ¬(taskChunkOf s i = ci ∧ statusOf s i ≠ unusedTask)) :
    (List.range s.taskCount).any
      (fun i => ci == (s.tasks.getD i default).taskChunkIndex
        && (s.tasks.getD i default).status != unusedTask) = false := by
  cases hany : (List.range s.taskCount).any
      (fun i => ci == (s.tasks.getD i default).taskChunkIndex
        && (s.tasks.getD i default).status != unusedTask) with
  | false => rfl
  | true =>
    exfalso
    obtain ⟨i, hmem, hp⟩ := List.any_eq_true.mp hany
    simp only [Bool.and_eq_true, beq_iff_eq, bne_iff_ne, ne_eq] at hp
    exact hNoAll i (List.mem_range.mp hmem) ⟨hp.1.symm, hp.2⟩

/-- When the guard is false and a free slot is found, `startTaskForChunk`
creates the task at that slot and emits `taskStartedMsg`. -/
theorem startTaskForChunk_creates (ci : Nat) (s : St) (i0 : Nat)
    (hNoAll : ∀ i, i < s.taskCount → ¬(taskChunkOf s i = ci ∧ statusOf s i ≠ unusedTask))
    (hf : (List.range s.tasks.length).find?
      (fun i => (s.tasks.getD i default).status == unusedTask) = some i0) :
    startTaskForChunk ci s =
      { s with
        tasks := s.tasks.set i0 (newTaskFor ci s)
        taskCount := if s.taskCount ≤ i0 then i0 + 1 else s.taskCount
        trace := s.trace ++ [Msg.taskStarted ci] } := by
  unfold startTaskForChunk
  rw [startTask_guard_false ci s hNoAll]
  simp only [Bool.false_eq_true, if_false]
  rw [hf]

/-- When the guard is false and no slot is unused, `startTaskForChunk` only
emits the diagnostic string. -/
theorem startTaskForChunk_exhausted (ci : Nat) (s : St)
    (hNoAll : ∀ i, i < s.taskCount → ¬(taskChunkOf s i = ci ∧ statusOf s i ≠ unusedTask))
    (hf : (List.range s.tasks.length).find?
      (fun i => (s.tasks.getD i default).status == unusedTask) = none) :
    startTaskForChunk ci s = outputString "No free task entries" s := by
  unfold startTaskForChunk
  rw [startTask_guard_false ci s hNoAll]
  simp only [Bool.false_eq_true, if_false]
  rw [hf]

/-- A chunk-wide "no task for `ci`" hypothesis also covers the guard range. -/
theorem noTask_below_taskCount (ci : Nat) (s : St)
    (hNo : ∀ i, i < s.tasks.length → ¬(taskChunkOf s i = ci ∧ statusOf s i ≠ unusedTask)) :
    ∀ i, i < s.taskCount → ¬(taskChunkOf s i = ci ∧ statusOf s i ≠ unusedTask) := by
  intro i _ hc
  by_cases hl : i < s.tasks.length
  · exact hNo i hl hc
  · exact hc.2 (statusOf_default s i (Nat.le_of_not_lt hl))

/-- C5 (amended): if no non-unused task for chunk `ci` exists anywhere in the
table and some slot is unused, then calling `startTaskForChunk ci` twice is
the same as calling it once, the (first) call emits exactly one
`taskStartedMsg`, and exactly one non-unused task for `ci` remains. -/
theorem C5_amended_start_idempotent (ci : Nat) (s : St)
    (hNo : ∀ i, i < s.tasks.length → ¬(taskChunkOf s i = ci ∧ statusOf s i ≠ unusedTask))
    (hFree : ∃ i, i < s.tasks.length ∧ statusOf s i = unusedTask) :
    startTaskForChunk ci (startTaskForChunk ci s) = startTaskForChunk ci s
    ∧ (startTaskForChunk ci s).trace = s.trace ++ [Msg.taskStarted ci]
    ∧ ∃! i, i < (startTaskForChunk ci s).tasks.length
        ∧ taskChunkOf (startTaskForChunk ci s) i = ci
        ∧ statusOf (startTaskForChunk ci s) i ≠ unusedTask := by
  have hNoAll := noTask_below_taskCount ci s hNo
  obtain ⟨i0, hf⟩ : ∃ i0, (List.range s.tasks.length).find?
      (fun i => (s.tasks.getD i default).status == unusedTask) = some i0 := by
    obtain ⟨w, hwlen, hwstat⟩ := hFree
    cases hfc : (List.range s.tasks.length).find?
        (fun i => (s.tasks.getD i default).status == unusedTask) with
    | none =>
      exfalso
      have := List.find?_eq_none.mp hfc w (List.mem_range.mpr hwlen)
      simp only [beq_iff_eq] at this
      exact this hwstat
    | some j => exact ⟨j, rfl⟩
  have hi0len : i0 < s.tasks.length := by
    simpa using List.mem_range.mp (List.mem_of_find?_eq_some hf)
  have hs1 := startTaskForChunk_creates ci s i0 hNoAll hf
  constructor
  · -- the second call hits the early-return guard
    apply startTaskForChunk_of_any_true
    rw [List.any_eq_true]
    refine ⟨i0, List.mem_range.mpr ?_, ?_⟩
    · rw [hs1]
      by_cases htc : s.taskCount ≤ i0
      · simp only [if_pos htc]; omega
      · simp only [if_neg htc]; omega
    · rw [hs1]
      simp only [Bool.and_eq_true, beq_iff_eq, bne_iff_ne, ne_eq]
      rw [getD_set_self _ _ _ _ hi0len]
      exact ⟨rfl, by simp [newTaskFor, running, unusedTask]⟩
  constructor
  · rw [hs1]
  · refine ⟨i0, ⟨?_, ?_, ?_⟩, ?_⟩
    · rw [hs1]; simpa using hi0len
    · unfold taskChunkOf
      rw [hs1]
      simp only []
      rw [getD_set_self _ _ _ _ hi0len]
      rfl
    · unfold statusOf
      rw [hs1]
      simp only []
      rw [getD_set_self _ _ _ _ hi0len]
      simp [newTaskFor, running, unusedTask]
    · intro j hj
      by_contra hji
      obtain ⟨hjlen, hjchunk, hjstat⟩ := hj
      rw [hs1] at hjlen hjchunk hjstat
      unfold taskChunkOf at hjchunk
      unfold statusOf at hjstat
      simp only [List.length_set] at hjlen
      rw [getD_set_ne _ _ _ _ _ (fun hc => hji hc)] at hjchunk hjstat
      exact hNo j hjlen ⟨hjchunk, hjstat⟩

/-- C5 counterexample: in a one-slot task table already running chunk 0
(a reachable state), calling `startTaskForChunk 1` twice creates no task for
chunk 1, emits no `taskStartedMsg`, and the second call is not a silent
no-op (it emits the diagnostic again), refuting the claim as stated. -/
theorem C5_counterexample :
    ¬(∃ i, i < (startTaskForChunk 1 (startTaskForChunk 1 (run 1 2 [Op.startTask 0]))).tasks.length
        ∧ taskChunkOf (startTaskForChunk 1 (startTaskForChunk 1 (run 1 2 [Op.startTask 0]))) i = 1
        ∧ statusOf (startTaskForChunk 1 (startTaskForChunk 1 (run 1 2 [Op.startTask 0]))) i
            ≠ unusedTask)
    ∧ (startTaskForChunk 1 (startTaskForChunk 1 (run 1 2 [Op.startTask 0]))).trace.countP
        (fun m => m == Msg.taskStarted 1) = 0
    ∧ startTaskForChunk 1 (startTaskForChunk 1 (run 1 2 [Op.startTask 0]))
        ≠ startTaskForChunk 1 (run 1 2 [Op.startTask 0]) := by
  decide

/-- C10: `startTaskForChunk` never checks that the chunk is in use: from any
state whose entry for `ci` is unused (type `unusedChunk`, null code) and
which has no task for `ci`, it still creates a running task with a null code
pointer and emits `taskStartedMsg`; the only refusing branch is slot
exhaustion, which emits the diagnostic string instead. -/
theorem C10_starts_unused_chunk (ci : Nat) (s : St)
    (hChunk : (s.chunks.getD ci default).chunkType = unusedChunk
      ∧ (s.chunks.getD ci default).code = none)
    (hNoTask : ∀ i, i < s.tasks.length → ¬(taskChunkOf s i = ci ∧ statusOf s i ≠ unusedTask)) :
    ((∃ i, i < s.tasks.length ∧ statusOf s i = unusedTask) →
      (startTaskForChunk ci s).trace = s.trace ++ [Msg.taskStarted ci]
      ∧ ∃ i, i < s.tasks.length
          ∧ statusOf (startTaskForChunk ci s) i = running
          ∧ taskChunkOf (startTaskForChunk ci s) i = ci
          ∧ ((startTaskForChunk ci s).tasks.getD i default).code = none)
    ∧ ((∀ i, i < s.tasks.length → statusOf s i ≠ unusedTask) →
      startTaskForChunk ci s = outputString "No free task entries" s) := by
  have hNoAll := noTask_below_taskCount ci s hNoTask
  constructor
  · intro hFree
    obtain ⟨i0, hf⟩ : ∃ i0, (List.range s.tasks.length).find?
        (fun i => (s.tasks.getD i default).status == unusedTask) = some i0 := by
      obtain ⟨w, hwlen, hwstat⟩ := hFree
      cases hfc : (List.range s.tasks.length).find?
          (fun i => (s.tasks.getD i default).status == unusedTask) with
      | none =>
        exfalso
        have := List.find?_eq_none.mp hfc w (List.mem_range.mpr hwlen)
        simp only [beq_iff_eq] at this
        exact this hwstat
      | some j => exact ⟨j, rfl⟩
    have hi0len : i0 < s.tasks.length := by
      simpa using List.mem_range.mp (List.mem_of_find?_eq_some hf)
    have hs1 := startTaskForChunk_creates ci s i0 hNoAll hf
    constructor
    · rw [hs1]
    · refine ⟨i0, hi0len, ?_, ?_, ?_⟩
      · unfold statusOf
        rw [hs1]
        simp only []
        rw [getD_set_self _ _ _ _ hi0len]
        rfl
      · unfold taskChunkOf
        rw [hs1]
        simp only []
        rw [getD_set_self _ _ _ _ hi0len]
        rfl
      · rw [hs1]
        simp only []
        rw [getD_set_self _ _ _ _ hi0len]
        simpa [newTaskFor] using hChunk.2
  · intro hFull
    apply startTaskForChunk_exhausted ci s hNoAll
    rw [List.find?_eq_none]
    intro j hj
    simp only [beq_iff_eq]
    exact hFull j (List.mem_range.mp hj)

/-- C5 amended-claim check at a concrete input. -/
theorem C5_amended_start_idempotent_witness :
    startTaskForChunk 1 (startTaskForChunk 1 (initSt 2 3)) = startTaskForChunk 1 (initSt 2 3)
    ∧ (startTaskForChunk 1 (initSt 2 3)).trace = (initSt 2 3).trace ++ [Msg.taskStarted 1]
    ∧ ∃! i, i < (startTaskForChunk 1 (initSt 2 3)).tasks.length
        ∧ taskChunkOf (startTaskForChunk 1 (initSt 2 3)) i = 1
        ∧ statusOf (startTaskForChunk 1 (initSt 2 3)) i ≠ unusedTask :=
  C5_amended_start_idempotent 1 (initSt 2 3) (by decide) (by decide)

/-- C10 check at a concrete input. -/
theorem C10_starts_unused_chunk_witness :
    ((∃ i, i < (initSt 2 3).tasks.length ∧ statusOf (initSt 2 3) i = unusedTask) →
      (startTaskForChunk 1 (initSt 2 3)).trace = (initSt 2 3).trace ++ [Msg.taskStarted 1]
      ∧ ∃ i, i < (initSt 2 3).tasks.length
          ∧ statusOf (startTaskForChunk 1 (initSt 2 3)) i = running
          ∧ taskChunkOf (startTaskForChunk 1 (initSt 2 3)) i = 1
          ∧ ((startTaskForChunk 1 (initSt 2 3)).tasks.getD i default).code = none)
    ∧ ((∀ i, i < (initSt 2 3).tasks.length → statusOf (initSt 2 3) i ≠ unusedTask) →
      startTaskForChunk 1 (initSt 2 3) = outputString "No free task entries" (initSt 2 3)) :=
  C10_starts_unused_chunk 1 (initSt 2 3) (by decide) (by decide)

/-- A non-unused status can only be read inside the table. -/
theorem lt_length_of_status_ne (s : St) (j : Nat) (h : statusOf s j ≠ unusedTask) :
    j < s.tasks.length := by
  by_contra h'
  exact h (statusOf_default s j (Nat.le_of_not_lt h'))

/-- Counting after a `filterMap`. -/
theorem countP_filterMap {α β : Type} (f : α → Option β) (p : β → Bool) :
    ∀ l : List α, (l.filterMap f).countP p
      = l.countP (fun a => ((f a).map p).getD false) := by
  intro l
  induction l with
  | nil => rfl
  | cons x xs ih =>
    cases hfx : f x with
    | none =>
      rw [List.filterMap_cons, hfx, List.countP_cons, ih, hfx]
      simp
    | some b =>
      rw [List.filterMap_cons, hfx, List.countP_cons, List.countP_cons, ih, hfx]
      simp

/-- A predicate holding at exactly one point below `n` is counted once. -/
theorem countP_range_unique (p : Nat → Bool) :
    ∀ (n i0 : Nat), i0 < n → p i0 = true → (∀ j, j < n → p j = true → j = i0) →
      (List.range n).countP p = 1 := by
  intro n
  induction n with
  | zero => intro i0 h; omega
  | succ n ih =>
    intro i0 h0 hp huniq
    rw [List.range_succ, List.countP_append]
    by_cases hin : i0 = n
    · have hz : (List.range n).countP p = 0 := by
        rw [List.countP_eq_zero]
        intro j hj hpj
        have := huniq j (by have := List.mem_range.mp hj; omega) hpj
        have hjn := List.mem_range.mp hj
        omega
      rw [hz]
      simp [← hin, hp]
    · have h0' : i0 < n := by omega
      have h1 : (List.range n).countP p = 1 :=
        ih i0 h0' hp (fun j hj hpj => huniq j (by omega) hpj)
      have hn : p n = false := by
        cases hpn : p n with
        | false => rfl
        | true => exact absurd (huniq n (by omega) hpn) (by omega)
      rw [h1]
      simp [hn]

/-- C3 (amended): `stopTaskForChunk c` emits exactly one `taskDoneMsg` for
`c` whenever some entry carries chunk index `c` regardless of its status
(so a spurious one is possible, see the counterexample) and none otherwise;
`stopAllTasks` emits exactly one `taskDoneMsg` for `c` iff a non-unused task
for `c` exists; `sendTaskDone` always emits exactly one. -/
theorem C3_amended_taskDone_emission (c : Nat) (s : St) (hInv : TasksInv s) :
    (stopTaskForChunk c s).trace
      = s.trace ++ (if anyEntryFor c s then [Msg.taskDone c] else [])
    ∧ ((stopAllTasks s).trace.drop s.trace.length).countP (isTaskDoneFor c)
      = (if anyNonUnusedFor c s then 1 else 0)
    ∧ (sendTaskDone c s).trace = s.trace ++ [Msg.taskDone c] := by
  refine ⟨?_, ?_, rfl⟩
  · unfold stopTaskForChunk
    cases hf : (List.range s.tasks.length).find?
        (fun i => c == (s.tasks.getD i default).taskChunkIndex) with
    | none =>
      have hA : anyEntryFor c s = false := by
        unfold anyEntryFor
        cases hany : (List.range s.tasks.length).any
            (fun i => c == (s.tasks.getD i default).taskChunkIndex) with
        | false => rfl
        | true =>
          obtain ⟨i, hmem, hp⟩ := List.any_eq_true.mp hany
          exact absurd hp (by simpa using List.find?_eq_none.mp hf i hmem)
      rw [hA]
      simp
    | some i =>
      have hmem := List.mem_of_find?_eq_some hf
      have hp := List.find?_some hf
      have hA : anyEntryFor c s = true := by
        unfold anyEntryFor
        rw [List.any_eq_true]
        exact ⟨i, hmem, hp⟩
      rw [hA]
      simp
  · have htrace : (stopAllTasks s).trace
        = s.trace ++ (List.range s.taskCount).filterMap (fun t =>
          if (s.tasks.getD t default).status ≠ unusedTask then
            some (Msg.taskDone (s.tasks.getD t default).taskChunkIndex)
          else none) := rfl
    rw [htrace, List.drop_left, countP_filterMap]
    by_cases hA : anyNonUnusedFor c s = true
    · obtain ⟨i0, hmem, hp⟩ := by
        unfold anyNonUnusedFor at hA
        exact List.any_eq_true.mp hA
      simp only [Bool.and_eq_true, beq_iff_eq, bne_iff_ne, ne_eq] at hp
      have hi0len : i0 < s.tasks.length := List.mem_range.mp hmem
      have hi0tc : i0 < s.taskCount := by
        by_contra h'
        exact hp.2 (hInv.1 i0 hi0len (Nat.le_of_not_lt h'))
      rw [hA, if_pos rfl]
      apply countP_range_unique _ s.taskCount i0 hi0tc
      · rw [if_pos hp.2]
        simpa [isTaskDoneFor] using hp.1
      · intro j hjtc hpj
        by_cases hstat : (s.tasks.getD j default).status ≠ unusedTask
        · rw [if_pos hstat] at hpj
          simp only [isTaskDoneFor, Option.getD, Option.map, beq_iff_eq] at hpj
          have hchunkj : (s.tasks.getD j default).taskChunkIndex = c := hpj
          have hjlen : j < s.tasks.length := lt_length_of_status_ne s j hstat
          exact hInv.2 j hjlen i0 hi0len hstat hp.2 (hchunkj.trans hp.1.symm)
        · rw [if_neg hstat] at hpj
          simp at hpj
    · have hA' : anyNonUnusedFor c s = false := by
        cases h' : anyNonUnusedFor c s with
        | false => rfl
        | true => exact absurd h' hA
      rw [hA']
      simp only [Bool.false_eq_true, if_false]
      rw [List.countP_eq_zero]
      intro j hjmem hpj
      by_cases hstat : (s.tasks.getD j default).status ≠ unusedTask
      · rw [if_pos hstat] at hpj
        simp only [isTaskDoneFor, Option.getD, Option.map, beq_iff_eq] at hpj
        have hchunkj : (s.tasks.getD j default).taskChunkIndex = c := hpj
        have hjlen : j < s.tasks.length := lt_length_of_status_ne s j hstat
        have : anyNonUnusedFor c s = true := by
          unfold anyNonUnusedFor
          rw [List.any_eq_true]
          refine ⟨j, List.mem_range.mpr hjlen, ?_⟩
          simp only [Bool.and_eq_true, beq_iff_eq, bne_iff_ne, ne_eq]
          exact ⟨hchunkj, hstat⟩
        rw [this] at hA'
        cases hA'
      · rw [if_neg hstat] at hpj
        simp at hpj

/-- C3 counterexample: on the freshly booted table, which holds no
non-unused task at all, `stopTaskForChunk 0` still emits a `taskDoneMsg`
for chunk 0 (the all-zero unused entry matches its status-blind search). -/
theorem C3_counterexample :
    (∀ i, i < (initSt 4 4).tasks.length → statusOf (initSt 4 4) i = unusedTask)
    ∧ (stopTaskForChunk 0 (initSt 4 4)).trace = [Msg.taskDone 0] := by
  decide

/-- C3 amended-claim check at a concrete input. -/
theorem C3_amended_taskDone_emission_witness :
    (stopTaskForChunk 2 (run 4 4 [Op.startTask 2])).trace
      = (run 4 4 [Op.startTask 2]).trace
        ++ (if anyEntryFor 2 (run 4 4 [Op.startTask 2]) then [Msg.taskDone 2] else [])
    ∧ ((stopAllTasks (run 4 4 [Op.startTask 2])).trace.drop
        (run 4 4 [Op.startTask 2]).trace.length).countP (isTaskDoneFor 2)
      = (if anyNonUnusedFor 2 (run 4 4 [Op.startTask 2]) then 1 else 0)
    ∧ (sendTaskDone 2 (run 4 4 [Op.startTask 2])).trace
      = (run 4 4 [Op.startTask 2]).trace ++ [Msg.taskDone 2] :=
  C3_amended_taskDone_emission 2 (run 4 4 [Op.startTask 2]) (by decide)

/-- `storeCodeChunk` does not change the chunk-table length. -/
theorem storeCodeChunk_chunks_length (ci : Nat) (d : List Nat) (s : St) :
    (storeCodeChunk ci d s).chunks.length = s.chunks.length := by
  unfold storeCodeChunk
  split
  · rfl
  · simp [appendPersistentRecord]

/-- `storeCodeChunk` appends no `chunkDeleted` record. -/
theorem storeCodeChunk_countChunkDeleted (ci : Nat) (d : List Nat) (s : St) :
    countChunkDeleted (storeCodeChunk ci d s).log = countChunkDeleted s.log := by
  unfold storeCodeChunk
  split
  · rfl
  · simp [appendPersistentRecord, countChunkDeleted, List.countP_append,
      chunkCode, chunkDeleted]

/-- Folding the per-index `chunkDeleted` appends of `deleteAllChunks`. -/
theorem foldl_appendChunkDeleted :
    ∀ (l : List Nat) (s : St),
      l.foldl (fun acc i => (appendPersistentRecord chunkDeleted i 0 [] acc).1) s
        = { s with log := s.log ++ l.map chunkDeletedRec } := by
  intro l
  induction l with
  | nil => intro s; simp
  | cons x xs ih =>
    intro s
    rw [List.foldl_cons, ih, List.map_cons]
    simp [appendPersistentRecord, chunkDeletedRec]

/-- What `deleteAllChunks` does to the log and the chunk table. -/
theorem deleteAllChunks_log_chunks (s : St) :
    (deleteAllChunks s).log = s.log ++ (List.range s.chunks.length).map chunkDeletedRec
    ∧ (deleteAllChunks s).chunks = List.replicate s.chunks.length default := by
  simp only [deleteAllChunks]
  rw [foldl_appendChunkDeleted]
  exact ⟨rfl, rfl⟩

/-- C4 (amended): after storing chunks at indices 1, 2 and 5 and issuing
`deleteAllCodeMsg`, exactly `MAX_CHUNKS` `chunkDeleted` records are in the
log (`deleteAllChunks` persists a deletion for every index, not only the
used ones) and every chunk-table entry is unused with a null code. -/
theorem C4_amended_deleteAll (maxTasks maxChunks : Nat) (d1 d2 d5 : List Nat)
    (_h : 5 < maxChunks) :
    countChunkDeleted (deleteAllChunks (storeCodeChunk 5 d5 (storeCodeChunk 2 d2
      (storeCodeChunk 1 d1 (initSt maxTasks maxChunks))))).log = maxChunks
    ∧ ∀ i, ((deleteAllChunks (storeCodeChunk 5 d5 (storeCodeChunk 2 d2
        (storeCodeChunk 1 d1 (initSt maxTasks maxChunks))))).chunks.getD i
          default).chunkType = unusedChunk
      ∧ ((deleteAllChunks (storeCodeChunk 5 d5 (storeCodeChunk 2 d2
        (storeCodeChunk 1 d1 (initSt maxTasks maxChunks))))).chunks.getD i
          default).code = none := by
  obtain ⟨hlog, hchunks⟩ := deleteAllChunks_log_chunks (storeCodeChunk 5 d5
    (storeCodeChunk 2 d2 (storeCodeChunk 1 d1 (initSt maxTasks maxChunks))))
  have hlen : (storeCodeChunk 5 d5 (storeCodeChunk 2 d2 (storeCodeChunk 1 d1
      (initSt maxTasks maxChunks)))).chunks.length = maxChunks := by
    rw [storeCodeChunk_chunks_length, storeCodeChunk_chunks_length,
      storeCodeChunk_chunks_length]
    simp [initSt]
  constructor
  · rw [show countChunkDeleted (deleteAllChunks (storeCodeChunk 5 d5 (storeCodeChunk 2 d2
        (storeCodeChunk 1 d1 (initSt maxTasks maxChunks))))).log
      = (deleteAllChunks (storeCodeChunk 5 d5 (storeCodeChunk 2 d2
        (storeCodeChunk 1 d1 (initSt maxTasks maxChunks))))).log.countP
          (fun r => r.recType == chunkDeleted) from rfl]
    rw [hlog, List.countP_append]
    have h0 : (storeCodeChunk 5 d5 (storeCodeChunk 2 d2 (storeCodeChunk 1 d1
        (initSt maxTasks maxChunks)))).log.countP (fun r => r.recType == chunkDeleted) = 0 := by
      rw [show ∀ s : St, s.log.countP (fun r => r.recType == chunkDeleted)
        = countChunkDeleted s.log from fun _ => rfl]
      rw [storeCodeChunk_countChunkDeleted, storeCodeChunk_countChunkDeleted,
        storeCodeChunk_countChunkDeleted]
      rfl
    rw [h0, hlen]
    simp only [List.countP_map, Function.comp_def]
    rw [show (fun x : Nat => (chunkDeletedRec x).recType == chunkDeleted) = (fun _ => true)
      from funext (fun x => by simp [chunkDeletedRec])]
    rw [List.countP_true, List.length_range]
    omega
  · intro i
    rw [hchunks]
    rw [getD_replicate]
    exact ⟨rfl, rfl⟩

/-- C4 counterexample: with six chunk slots, storing chunks at indices 1, 2
and 5 and then deleting all code appends six `chunkDeleted` records, not
three. -/
theorem C4_counterexample :
    ¬(countChunkDeleted (deleteAllChunks (storeCodeChunk 5 [commandStack]
        (storeCodeChunk 2 [commandStack] (storeCodeChunk 1 [startHat]
          (initSt 2 6))))).log = 3)
    ∧ countChunkDeleted (deleteAllChunks (storeCodeChunk 5 [commandStack]
        (storeCodeChunk 2 [commandStack] (storeCodeChunk 1 [startHat]
          (initSt 2 6))))).log = 6 := by
  decide

/-- C4 amended-claim check at a concrete input. -/
theorem C4_amended_deleteAll_witness :
    countChunkDeleted (deleteAllChunks (storeCodeChunk 5 [commandStack] (storeCodeChunk 2
      [commandStack] (storeCodeChunk 1 [startHat] (initSt 2 6))))).log = 6
    ∧ ∀ i, ((deleteAllChunks (storeCodeChunk 5 [commandStack] (storeCodeChunk 2
        [commandStack] (storeCodeChunk 1 [startHat] (initSt 2 6))))).chunks.getD i
          default).chunkType = unusedChunk
      ∧ ((deleteAllChunks (storeCodeChunk 5 [commandStack] (storeCodeChunk 2
        [commandStack] (storeCodeChunk 1 [startHat] (initSt 2 6))))).chunks.getD i
          default).code = none :=
  C4_amended_deleteAll 2 6 [startHat] [commandStack] [commandStack] (by decide)

/-- One `queueByte` with room available appends exactly one byte to the
ring contents and moves neither `outBufStart` nor any queued byte. -/
theorem queueByte_spec (b : Nat) (s : OutBuf) (hWF : OutBufWF s)
    (hroom : OUTBUF_BYTES s < OUTBUF_MASK) :
    ringContents (queueByte b s) = ringContents s ++ [b % 256]
    ∧ OUTBUF_BYTES (queueByte b s) = OUTBUF_BYTES s + 1
    ∧ (queueByte b s).outBufStart = s.outBufStart
    ∧ OutBufWF (queueByte b s) := by
  obtain ⟨hst, hen⟩ := hWF
  rw [show OUTBUF_SIZE = 1024 from rfl] at hst hen
  have hb : OUTBUF_BYTES s = (s.outBufEnd + 1024 - s.outBufStart) % 1024 := by
    simp [OUTBUF_BYTES, OUTBUF_SIZE]
  have hroom' : (s.outBufEnd + 1024 - s.outBufStart) % 1024 < 1023 := by
    rw [hb] at hroom
    simpa [OUTBUF_MASK, OUTBUF_SIZE] using hroom
  have hcount : OUTBUF_BYTES (queueByte b s) = OUTBUF_BYTES s + 1 := by
    simp only [OUTBUF_BYTES, queueByte, OUTBUF_SIZE]
    omega
  refine ⟨?_, hcount, rfl, ?_, ?_⟩
  · unfold ringContents
    rw [hcount, List.range_succ, List.map_append]
    congr 1
    · apply List.map_congr_left
      intro j hj
      have hjlt := List.mem_range.mp hj
      rw [hb] at hjlt
      simp only [queueByte, OUTBUF_SIZE]
      rw [if_neg (by omega)]
    · simp only [queueByte, OUTBUF_SIZE, List.map_cons, List.map_nil]
      rw [hb]
      rw [if_pos (by omega)]
  · simpa [queueByte, OUTBUF_SIZE] using hst
  · simp only [queueByte, OUTBUF_SIZE]
    omega

/-- Queuing a byte list with enough room appends it (mod 256) atomically. -/
theorem queueBytes_spec :
    ∀ (l : List Nat) (s : OutBuf), OutBufWF s →
      OUTBUF_BYTES s + l.length ≤ OUTBUF_MASK →
      ringContents (queueBytes l s) = ringContents s ++ l.map (· % 256)
      ∧ OUTBUF_BYTES (queueBytes l s) = OUTBUF_BYTES s + l.length
      ∧ (queueBytes l s).outBufStart = s.outBufStart
      ∧ OutBufWF (queueBytes l s) := by
  intro l
  induction l with
  | nil =>
    intro s hWF _
    exact ⟨by simp [queueBytes], by simp [queueBytes], rfl, hWF⟩
  | cons x xs ih =>
    intro s hWF hle
    rw [List.length_cons] at hle
    have hroom : OUTBUF_BYTES s < OUTBUF_MASK := by omega
    obtain ⟨hc1, hc2, hc3, hWF1⟩ := queueByte_spec x s hWF hroom
    have hle1 : OUTBUF_BYTES (queueByte x s) + xs.length ≤ OUTBUF_MASK := by
      rw [hc2]; omega
    obtain ⟨hd1, hd2, hd3, hWF2⟩ := ih (queueByte x s) hWF1 hle1
    have hq : queueBytes (x :: xs) s = queueBytes xs (queueByte x s) := rfl
    refine ⟨?_, ?_, ?_, ?_⟩
    · rw [hq, hd1, hc1]
      simp
    · rw [hq, hd2, hc2, List.length_cons]
      omega
    · rw [hq, hd3, hc3]
    · rw [hq]; exact hWF2

/-- C2: `sendMessage` is atomic on the output ring: when the free space
(`OUTBUF_MASK - count`, strict-greater `hasOutputSpace` test) does not
exceed the message's total length the whole state is left unchanged, and
otherwise every byte of the frame is enqueued in order; the count stays
below the mask, so the ring never overflows. -/
theorem C2_sendMessage_atomic (msgType chunkIndex : Nat) (data : Option (List Nat))
    (s : OutBuf) (hWF : OutBufWF s) :
    (OUTBUF_MASK - OUTBUF_BYTES s ≤ msgTotalBytes data →
      sendMessage msgType chunkIndex data s = s)
    ∧ (msgTotalBytes data < OUTBUF_MASK - OUTBUF_BYTES s →
      ringContents (sendMessage msgType chunkIndex data s)
        = ringContents s ++ (frameBytes msgType chunkIndex data).map (· % 256)
      ∧ OUTBUF_BYTES (sendMessage msgType chunkIndex data s)
        = OUTBUF_BYTES s + msgTotalBytes data
      ∧ OUTBUF_BYTES (sendMessage msgType chunkIndex data s) < OUTBUF_MASK) := by
  constructor
  · intro h
    cases data with
    | none =>
      simp only [msgTotalBytes] at h
      simp only [sendMessage]
      rw [if_neg ?_]
      simp only [hasOutputSpace, decide_eq_true_eq]
      omega
    | some d =>
      simp only [msgTotalBytes] at h
      simp only [sendMessage]
      rw [if_neg ?_]
      simp only [hasOutputSpace, decide_eq_true_eq]
      omega
  · intro h
    cases data with
    | none =>
      simp only [msgTotalBytes] at h
      have hs : hasOutputSpace 3 s = true := by
        simp only [hasOutputSpace, decide_eq_true_eq]
        omega
      simp only [sendMessage]
      rw [if_pos hs]
      obtain ⟨h1, h2, _, _⟩ := queueBytes_spec [250, msgType, chunkIndex] s hWF
        (by simp only [List.length_cons, List.length_nil]; omega)
      refine ⟨h1, ?_, ?_⟩
      · rw [h2]
        rfl
      · rw [h2]
        simp only [List.length_cons, List.length_nil]
        omega
    | some d =>
      simp only [msgTotalBytes] at h
      have hs : hasOutputSpace (5 + d.length) s = true := by
        simp only [hasOutputSpace, decide_eq_true_eq]
        omega
      simp only [sendMessage]
      rw [if_pos hs]
      obtain ⟨h1, h2, _, _⟩ := queueBytes_spec
        ([251, msgType, chunkIndex, d.length % 256, (d.length / 256) % 256] ++ d) s hWF
        (by simp only [List.length_append, List.length_cons, List.length_nil]; omega)
      refine ⟨h1, ?_, ?_⟩
      · rw [h2]
        simp only [msgTotalBytes, List.length_append, List.length_cons, List.length_nil]
      · rw [h2]
        simp only [List.length_append, List.length_cons, List.length_nil]
        omega

/-- C2 check at a concrete input. -/
theorem C2_sendMessage_atomic_witness :
    (OUTBUF_MASK - OUTBUF_BYTES initOutBuf ≤ msgTotalBytes (some [1, 7]) →
      sendMessage varValueMsg 0 (some [1, 7]) initOutBuf = initOutBuf)
    ∧ (msgTotalBytes (some [1, 7]) < OUTBUF_MASK - OUTBUF_BYTES initOutBuf →
      ringContents (sendMessage varValueMsg 0 (some [1, 7]) initOutBuf)
        = ringContents initOutBuf ++ (frameBytes varValueMsg 0 (some [1, 7])).map (· % 256)
      ∧ OUTBUF_BYTES (sendMessage varValueMsg 0 (some [1, 7]) initOutBuf)
        = OUTBUF_BYTES initOutBuf + msgTotalBytes (some [1, 7])
      ∧ OUTBUF_BYTES (sendMessage varValueMsg 0 (some [1, 7]) initOutBuf) < OUTBUF_MASK) :=
  C2_sendMessage_atomic varValueMsg 0 (some [1, 7]) initOutBuf
    ⟨by norm_num [initOutBuf, OUTBUF_SIZE], by norm_num [initOutBuf, OUTBUF_SIZE]⟩

/-- C6: encode-then-decode round trip.  For every tagged value that is a
32-bit integer, a boolean, or a string of at most 499 bytes, decoding the
type-prefixed body built by `sendValueMessage` with `setVariableValue`
stores exactly that value in the target variable slot. -/
theorem C6_round_trip (v : Value) (varID : Nat) (vars : List Value)
    (hv : ValueInRange v) (hid : varID < vars.length) :
    setVariableValue varID (sendValueMessageData v).length (sendValueMessageData v) vars
      = vars.set varID v := by
  cases v with
  | intV n =>
    obtain ⟨h1, h2⟩ := hv
    have hm0 : 0 ≤ n % 4294967296 := Int.emod_nonneg n (by norm_num)
    have hmcast : ((n % 4294967296).toNat : Int) = n % 4294967296 :=
      Int.toNat_of_nonneg hm0
    have hmlt : (n % 4294967296).toNat < 4294967296 := by
      have := Int.emod_lt_of_pos n (show (0 : Int) < 4294967296 by norm_num)
      omega
    have hval : asInt32 (n % 4294967296).toNat = n := by
      unfold asInt32
      rw [Nat.mod_eq_of_lt hmlt]
      split <;> omega
    unfold setVariableValue
    rw [if_pos hid]
    simp only [sendValueMessageData, int32Bytes, List.getD_cons_zero, List.getD_cons_succ]
    have harg : (n % 4294967296).toNat / 16777216 % 256 * 16777216
        + (n % 4294967296).toNat / 65536 % 256 * 65536
        + (n % 4294967296).toNat / 256 % 256 * 256
        + (n % 4294967296).toNat % 256 = (n % 4294967296).toNat := by
      omega
    rw [harg, hval]
    simp
  | strV str =>
    obtain ⟨hlen, hbytes⟩ := hv
    have htake : str.take 499 = str := List.take_of_length_le hlen
    have hmap : str.map (· % 256) = str := by
      calc str.map (· % 256)
          = str.map id := List.map_congr_left (fun b hb => Nat.mod_eq_of_lt (hbytes b hb))
        _ = str := List.map_id str
    unfold setVariableValue
    rw [if_pos hid]
    simp only [sendValueMessageData, htake, hmap, List.getD_cons_zero, List.length_cons,
      List.drop_succ_cons, List.drop_zero]
    rw [if_neg (by norm_num)]
    simp only [if_true]
    rw [if_pos (show 1 ≤ str.length + 1 by omega)]
    rw [Nat.add_sub_cancel, List.take_length]
  | boolV b =>
    unfold setVariableValue
    rw [if_pos hid]
    cases b <;> simp [sendValueMessageData]
  | byteArrayV bs =>
    exact hv.elim

/-- C6 check at a concrete input. -/
theorem C6_round_trip_witness :
    setVariableValue 0 (sendValueMessageData (Value.intV (-123456))).length
      (sendValueMessageData (Value.intV (-123456))) [Value.intV 0]
      = [Value.intV 0].set 0 (Value.intV (-123456)) :=
  C6_round_trip (Value.intV (-123456)) 0 [Value.intV 0]
    ⟨by norm_num, by norm_num⟩ (by norm_num)

/-- Correctness of the fuelled resync scan: a found index is the least
accepted index at or after `k`; a miss means no index qualifies. -/
theorem findStartGo_correct (buf : List Nat) :
    ∀ (fuel k : Nat), buf.length ≤ k + fuel →
      (∀ n, findStartGo buf fuel k = some n →
        k ≤ n ∧ n < buf.length ∧ acceptAt buf n ∧ ∀ j, k ≤ j → j < n → ¬ acceptAt buf j)
      ∧ (findStartGo buf fuel k = none →
        ∀ j, k ≤ j → j < buf.length → ¬ acceptAt buf j) := by
  intro fuel
  induction fuel with
  | zero =>
    intro k hk
    constructor
    · intro n hn
      simp [findStartGo] at hn
    · intro _ j hkj hjl
      intro _
      omega
  | succ fuel ih =>
    intro k hk
    by_cases hkl : k < buf.length
    · have hrec := ih (k + 1) (by omega)
      by_cases hstart : buf.getD k 0 = 250 ∨ buf.getD k 0 = 251
      · by_cases hcont : k + 1 < buf.length ∧ legalMsgType (buf.getD (k + 1) 0) = false
        · have hstep : findStartGo buf (fuel + 1) k = findStartGo buf fuel (k + 1) := by
            simp only [findStartGo]
            rw [if_pos hkl, if_pos hstart, if_pos hcont]
          have hknot : ¬ acceptAt buf k := by
            intro hacc
            have := hacc.2 hcont.1
            rw [hcont.2] at this
            cases this
          constructor
          · intro n hn
            rw [hstep] at hn
            obtain ⟨h1, h2, h3, h4⟩ := hrec.1 n hn
            refine ⟨by omega, h2, h3, ?_⟩
            intro j hkj hjn
            by_cases hj : j = k
            · rw [hj]; exact hknot
            · exact h4 j (by omega) hjn
          · intro hn j hkj hjl
            rw [hstep] at hn
            by_cases hj : j = k
            · rw [hj]; exact hknot
            · exact hrec.2 hn j (by omega) hjl
        · have hstep : findStartGo buf (fuel + 1) k = some k := by
            simp only [findStartGo]
            rw [if_pos hkl, if_pos hstart, if_neg hcont]
          have hacc : acceptAt buf k := by
            refine ⟨hstart, ?_⟩
            intro hlt
            cases hleg : legalMsgType (buf.getD (k + 1) 0) with
            | true => rfl
            | false => exact absurd ⟨hlt, hleg⟩ hcont
          constructor
          · intro n hn
            rw [hstep] at hn
            injection hn with hn
            subst hn
            exact ⟨Nat.le_refl k, hkl, hacc, fun j hkj hjk => by omega⟩
          · intro hn
            rw [hstep] at hn
            cases hn
      · have hstep : findStartGo buf (fuel + 1) k = findStartGo buf fuel (k + 1) := by
          simp only [findStartGo]
          rw [if_pos hkl, if_neg hstart]
        have hknot : ¬ acceptAt buf k := fun hacc => hstart hacc.1
        constructor
        · intro n hn
          rw [hstep] at hn
          obtain ⟨h1, h2, h3, h4⟩ := hrec.1 n hn
          refine ⟨by omega, h2, h3, ?_⟩
          intro j hkj hjn
          by_cases hj : j = k
          · rw [hj]; exact hknot
          · exact h4 j (by omega) hjn
        · intro hn j hkj hjl
          rw [hstep] at hn
          by_cases hj : j = k
          · rw [hj]; exact hknot
          · exact hrec.2 hn j (by omega) hjl
    · have hstep : findStartGo buf (fuel + 1) k = none := by
        simp only [findStartGo]
        rw [if_neg hkl]
      constructor
      · intro n hn
        rw [hstep] at hn
        cases hn
      · intro _ j hkj hjl
        intro _
        omega

/-- `findStart` finds exactly the least accepted index at or after `k`. -/
theorem findStart_correct (buf : List Nat) (k : Nat) :
    (∀ n, findStart buf k = some n →
      k ≤ n ∧ n < buf.length ∧ acceptAt buf n ∧ ∀ j, k ≤ j → j < n → ¬ acceptAt buf j)
    ∧ (findStart buf k = none → ∀ j, k ≤ j → j < buf.length → ¬ acceptAt buf j) :=
  findStartGo_correct buf (buf.length - k) k (by omega)

/-- C8 (amended): `skipToStartByteAfter k` shifts to offset 0 the first
byte at index ≥ k equal to 0xFA/0xFB whose following byte, when one is
buffered, is a legal message type in [0x01, 0x20] (a start byte at the very
end of the buffer is accepted without the check); if no such byte exists
the buffer is cleared.  In particular, receiving `[0, 0, 0xFA, pingMsg, 0]`
discards the two leading bytes and dispatches the ping command exactly
once. -/
theorem C8_amended_resync (k : Nat) (buf : List Nat) :
    ((∃ i, k ≤ i ∧ i < buf.length ∧ acceptAt buf i) →
      ∃ i, k ≤ i ∧ i < buf.length ∧ acceptAt buf i
        ∧ (∀ j, k ≤ j → j < i → ¬ acceptAt buf j)
        ∧ skipToStartByteAfter k buf = buf.drop i)
    ∧ ((∀ i, k ≤ i → i < buf.length → ¬ acceptAt buf i) →
      skipToStartByteAfter k buf = [])
    ∧ ((processMessage [0, 0, 250, pingMsg, 0] false initRcvSt).rcvBuf = [250, pingMsg, 0]
      ∧ (processMessage [0, 0, 250, pingMsg, 0] false initRcvSt).events = []
      ∧ (processMessage [] false (processMessage [0, 0, 250, pingMsg, 0] false
          initRcvSt)).events = [Evt.shortCmd pingMsg 0]
      ∧ (processMessage [] false (processMessage [0, 0, 250, pingMsg, 0] false
          initRcvSt)).rcvBuf = []) := by
  refine ⟨?_, ?_, by decide⟩
  · intro hex
    cases hf : findStart buf k with
    | none =>
      exfalso
      obtain ⟨i, h1, h2, h3⟩ := hex
      exact (findStart_correct buf k).2 hf i h1 h2 h3
    | some n =>
      obtain ⟨h1, h2, h3, h4⟩ := (findStart_correct buf k).1 n hf
      refine ⟨n, h1, h2, h3, h4, ?_⟩
      unfold skipToStartByteAfter
      rw [hf]
  · intro hall
    cases hf : findStart buf k with
    | none =>
      unfold skipToStartByteAfter
      rw [hf]
    | some n =>
      exfalso
      obtain ⟨h1, h2, h3, _⟩ := (findStart_correct buf k).1 n hf
      exact hall n h1 h2 h3

/-- C8 counterexample: in the buffer `[0x00, 0xFA]` no byte satisfies the
claim's condition (the trailing 0xFA has no following byte), so the claim
demands a cleared buffer; the code instead keeps the trailing 0xFA. -/
theorem C8_counterexample :
    (∀ i, ¬ claimAccept [0, 250] i)
    ∧ skipToStartByteAfter 1 [0, 250] ≠ [] := by
  constructor
  · intro i hacc
    have h2 : i + 1 < ([0, 250] : List Nat).length := hacc.2.1
    have hi : i = 0 := by
      simp only [List.length_cons, List.length_nil] at h2
      omega
    subst hi
    exact absurd hacc (by decide)
  · decide

/-- C8 amended-claim check at a concrete input. -/
theorem C8_amended_resync_witness :
    (∃ i, 1 ≤ i ∧ i < ([0, 0, 250, 26, 0] : List Nat).length ∧ acceptAt [0, 0, 250, 26, 0] i)
    ∧ ∃ i, 1 ≤ i ∧ i < ([0, 0, 250, 26, 0] : List Nat).length ∧ acceptAt [0, 0, 250, 26, 0] i
        ∧ (∀ j, 1 ≤ j → j < i → ¬ acceptAt [0, 0, 250, 26, 0] j)
        ∧ skipToStartByteAfter 1 [0, 0, 250, 26, 0] = ([0, 0, 250, 26, 0] : List Nat).drop i :=
  ⟨⟨2, by decide, by decide, by decide⟩,
   (C8_amended_resync 1 [0, 0, 250, 26, 0]).1 ⟨2, by decide, by decide, by decide⟩⟩

/-- C7: a buffered long frame whose byte at offset `4 + msgLength` is not
the terminator 0xFE is never dispatched: `processLongMessage` resyncs
instead, and a command handler runs only when at least `5 + msgLength`
bytes are buffered and that byte equals 0xFE. -/
theorem C7_long_frame_guard (timeout : Bool) (s : RcvSt) :
    (5 + (s.rcvBuf.getD 4 0 * 256 + s.rcvBuf.getD 3 0) ≤ s.rcvBuf.length →
      s.rcvBuf.getD (4 + (s.rcvBuf.getD 4 0 * 256 + s.rcvBuf.getD 3 0)) 0 ≠ 254 →
      processLongMessage timeout s = { s with rcvBuf := skipToStartByteAfter 1 s.rcvBuf })
    ∧ ((processLongMessage timeout s).events ≠ s.events →
      5 + (s.rcvBuf.getD 4 0 * 256 + s.rcvBuf.getD 3 0) ≤ s.rcvBuf.length
        ∧ s.rcvBuf.getD (4 + (s.rcvBuf.getD 4 0 * 256 + s.rcvBuf.getD 3 0)) 0 = 254) := by
  have hidx : 5 + (s.rcvBuf.getD 4 0 * 256 + s.rcvBuf.getD 3 0) - 1
      = 4 + (s.rcvBuf.getD 4 0 * 256 + s.rcvBuf.getD 3 0) := by omega
  constructor
  · intro hlen hterm
    simp only [processLongMessage]
    rw [if_neg (by omega)]
    rw [if_pos (by rw [hidx]; exact hterm)]
  · intro hne
    simp only [processLongMessage] at hne
    by_cases h1 : s.rcvBuf.length < 5
        ∨ s.rcvBuf.length < 5 + (s.rcvBuf.getD 4 0 * 256 + s.rcvBuf.getD 3 0)
    · rw [if_pos h1] at hne
      by_cases ht : timeout = true
      · rw [if_pos ht] at hne
        exact absurd rfl hne
      · rw [if_neg ht] at hne
        exact absurd rfl hne
    · rw [if_neg h1] at hne
      by_cases h2 : s.rcvBuf.getD
          (5 + (s.rcvBuf.getD 4 0 * 256 + s.rcvBuf.getD 3 0) - 1) 0 ≠ 254
      · rw [if_pos h2] at hne
        exact absurd rfl hne
      · refine ⟨by omega, ?_⟩
        rw [← hidx]
        exact not_not.mp h2

/-- C7 check at a concrete input: a 6-byte long frame with `msgLength = 1`
whose terminator slot holds 0x00 is resynced away, not dispatched. -/
theorem C7_long_frame_guard_witness :
    processLongMessage false ⟨[251, 8, 0, 1, 0, 0], []⟩
      = { (⟨[251, 8, 0, 1, 0, 0], []⟩ : RcvSt) with
          rcvBuf := skipToStartByteAfter 1 [251, 8, 0, 1, 0, 0] } :=
  (C7_long_frame_guard false ⟨[251, 8, 0, 1, 0, 0], []⟩).1 (by decide) (by decide)

/-- C9: the boardie `recvBytes` loop condition `total <= count` is an
off-by-one: called with `count = 0` and one byte available it writes
`buf[0]` (an index not below `count`) and returns 1 > `count`. -/
theorem C9_recvBytes_bound_violated :
    recvBytes [42] 0 = (1, [(0, 42)]) ∧ 0 < (recvBytes [42] 0).1 := by
  decide

end VM
